import Mathlib

/-!
Verification of the rollover coordination engine of `dmt-friendly-fire`
(`FriendlyFire` class, files `src/index.js` and the unnamed main file).

Shallow embedding notes:

* JavaScript strings that undergo case normalisation (service names and
  container labels) are modelled as lists of UTF-16 code units (`JStr`);
  `toLowerCase` on the ASCII range is `jsToLowerCode`.  Container ids are
  opaque and only ever compared for equality, so they stay `String`.
* JavaScript `Map` objects (insertion ordered, unique keys, `get`/`set`)
  are modelled as association lists with `mapGet?` (first binding) and
  `mapSet` (replace the first binding in place, append when absent) —
  exactly the observable behaviour of `Map.prototype.get` / `set`.
  The `serviceIntervals` plain object is modelled the same way; a read of
  an absent key (`undefined`) is `none`, and the source comparison
  `undefined < new Date()` is `false`, which `dueLt` reproduces.
* Clock reads (`Date.now()` / `new Date()`) become an explicit `now : Nat`
  (milliseconds) parameter supplied per pass; `Date` comparisons compare
  the underlying milliseconds.
* The Docker runtime client is an environment: `started` maps a container
  id to the `State.StartedAt` timestamp that `inspect` reports, and
  `stopOk` / `startOk` tell whether a `stop()` / `start()` call succeeds
  or rejects.  Log output is ignored; the stop/start calls that a worker
  pass issues are recorded in an explicit trace (`CallEv`).
* `Array.prototype.sort` with a comparator is modelled as a stable
  comparison sort (`List.insertionSort` on `comparator a b ≤ 0`).  For a
  consistent comparator every stable sort agrees; the comparator in
  `_sortContainersByAge` is inconsistent (it never reads its second
  operand), in which case ECMAScript leaves the order
  implementation-defined — the theorems about that comparator therefore
  also state comparator-level facts that are independent of this choice.
-/

/-- JavaScript string as a list of UTF-16 code units (ASCII here). -/
abbrev JStr := List Nat

/-- The ASCII case-fold performed by `toLowerCase` on the code points that
occur in service names: code units 65–90 (`A`–`Z`) shift by 32. -/
def jsToLowerCode (c : Nat) : Nat :=
  if 65 ≤ c ∧ c ≤ 90 then c + 32 else c

/-- `toLowerCase` over a whole string. -/
def jsToLower (s : JStr) : JStr := s.map jsToLowerCode

/-- The code unit of the comma separator used by the split. -/
def commaCode : Nat := 44

/-- The split on commas done by `split` in `_getServiceEnv`: the empty
string yields one empty field, and every comma
opens a new (possibly empty) field. -/
def splitOnComma : JStr → List JStr
  | [] => [[]]
  | c :: rest =>
    let r := splitOnComma rest
    if c = commaCode then [] :: r
    else
      match r with
      | [] => [[c]]
      | g :: gs => (c :: g) :: gs

/-- Interval constants of `this._config` (milliseconds), lines 41–43 of the
main file: `rolloverInterval = 30*60*1000`, `initialDebounce = 5*60*1000`,
`serviceRerollDistance = 5*60*1000`. -/
structure Cfg where
  rolloverInterval : Nat
  initialDebounce : Nat
  serviceRerollDistance : Nat
deriving DecidableEq

/-- The compiled-in defaults. -/
def defaultCfg : Cfg :=
  { rolloverInterval := 30 * 60 * 1000
    initialDebounce := 5 * 60 * 1000
    serviceRerollDistance := 5 * 60 * 1000 }

/-- `Map.prototype.get` / object indexing: the first binding of the key. -/
def mapGet? {κ α : Type} [DecidableEq κ] : List (κ × α) → κ → Option α
  | [], _ => none
  | (k', v) :: rest, k => if k' = k then some v else mapGet? rest k

/-- `Map.prototype.set` / object assignment: replace the first binding in
place, append a fresh binding at the end when the key is absent (JS `Map`
keeps insertion order). -/
def mapSet {κ α : Type} [DecidableEq κ] : List (κ × α) → κ → α → List (κ × α)
  | [], k, v => [(k, v)]
  | (k', v') :: rest, k, v =>
    if k' = k then (k, v) :: rest else (k', v') :: mapSet rest k v

/-- `_getServiceEnv` (lines 71–77): reject an absent or empty
`FF_SERVICES` (`if (!services) throw`), otherwise lower-case the whole
value and split it on commas. -/
def getServiceEnv (env : Option JStr) : Except String (List JStr) :=
  match env with
  | none => .error "Invalid services given"
  | some s =>
    if s = [] then .error "Invalid services given"
    else .ok (splitOnComma (jsToLower s))

/-- The record `inspect()` yields for a container: its id and the
`State.StartedAt` timestamp. -/
structure InspectInfo where
  id : String
  startedAt : Nat
deriving DecidableEq

/-- The comparator of `_sortContainersByAge` (lines 88–92): it captures a
single `now` before sorting and compares only the start time of `a`
(`started > now ? -1 : started < now ? 1 : 0`); the operand `b` is never
read. -/
def ageComparator (now : Nat) (a _b : InspectInfo) : Int :=
  if now < a.startedAt then -1 else if a.startedAt < now then 1 else 0

/-- `_sortContainersByAge` (lines 79–93): inspect every id, sort the
inspection records with `ageComparator` (modelled as a stable sort on
`comparator ≤ 0`), and project back to ids. -/
def sortContainersByAge (started : String → Nat) (now : Nat)
    (containerIds : List String) : List String :=
  (List.insertionSort (fun a b => ageComparator now a b ≤ 0)
    (containerIds.map (fun i => InspectInfo.mk i (started i)))).map
    InspectInfo.id

/-- The shared mutable state: the busy flag `_workerMutex`, the committed
`serviceMap` (service → ordered container ids) and `serviceIntervals`
(service → next due timestamp). -/
structure FFState where
  workerMutex : Bool
  serviceMap : List (JStr × List String)
  serviceIntervals : List (JStr × Nat)
deriving DecidableEq

/-- `_updateServiceMapping` (lines 95–114): sort the given ids by age,
commit them for the service, and set the next due time of the service to
`now + initialDebounce + serviceRerollDistance * serviceIndex`. -/
def updateServiceMapping (cfg : Cfg) (started : String → Nat) (now : Nat)
    (serviceIndex : Nat) (rootService : JStr) (containerIds : List String)
    (st : FFState) : FFState :=
  let sorted := sortContainersByAge started now containerIds
  { st with
    serviceMap := mapSet st.serviceMap rootService sorted
    serviceIntervals := mapSet st.serviceIntervals rootService
      (now + cfg.initialDebounce + cfg.serviceRerollDistance * serviceIndex) }

/-- One entry of `listContainers()`: the id and the
`com.docker.compose.service` label (absent label is `none`). -/
structure ContainerInfo where
  id : String
  serviceLabel : Option JStr
deriving DecidableEq

/-- The body of the `containers.forEach` grouping step of `_updateMemory`
(lines 134–150): skip a missing or empty label (`if (!rawRootService)
return`), lower-case the label, keep only allow-listed services, and push
the id onto the list of that service unless it is already present. -/
def collectStep (qualifiedServices : List JStr)
    (m : List (JStr × List String)) (c : ContainerInfo) :
    List (JStr × List String) :=
  match c.serviceLabel with
  | none => m
  | some rawRootService =>
    if rawRootService = [] then m
    else
      let rootService := jsToLower rawRootService
      if qualifiedServices.contains rootService then
        let services := (mapGet? m rootService).getD []
        if services.contains c.id then mapSet m rootService services
        else mapSet m rootService (services ++ [c.id])
      else m

/-- The candidate `serviceMap` a discovery iteration builds from the
runtime listing (lines 130–150). -/
def groupContainers (qualifiedServices : List JStr)
    (containers : List ContainerInfo) : List (JStr × List String) :=
  containers.foldl (collectStep qualifiedServices) []

/-- The first-population branch of `_updateMemory` (lines 153–165): assign
the candidate map wholesale, then remap every service with its running
index.  The returned log records, in order, each remapped service and the
due time actually stored for it (read back from the state). -/
def firstGo (cfg : Cfg) (started : String → Nat) (now : Nat) :
    List (JStr × List String) → Nat → FFState → List (JStr × Nat) →
    FFState × List (JStr × Nat)
  | [], _, st, log => (st, log)
  | (rootService, containerIds) :: rest, i, st, log =>
    let st' := updateServiceMapping cfg started now i rootService containerIds st
    firstGo cfg started now rest (i + 1) st'
      (log ++ [(rootService, (mapGet? st'.serviceIntervals rootService).getD 0)])

/-- First population: `this._config.serviceMap = serviceMap` followed by
the indexed remap loop. -/
def firstPopulation (cfg : Cfg) (started : String → Nat) (now : Nat)
    (grouped : List (JStr × List String)) (st : FFState) :
    FFState × List (JStr × Nat) :=
  firstGo cfg started now grouped 0 { st with serviceMap := grouped } []

/-- The drift branch of `_updateMemory` (lines 167–183): walk the committed
map; for each service that is also in the fresh candidate map, test
`idsDiffer = newContainerIds.some(id => !containerIds.includes(id))`; on
drift, remap with the running index `i++` — note the source passes the
committed `containerIds`, not `newContainerIds`, to the remap.  The log
records each remapped service with its stored due time. -/
def driftGo (cfg : Cfg) (started : String → Nat) (now : Nat)
    (fresh : List (JStr × List String)) :
    List (JStr × List String) → Nat → FFState → List (JStr × Nat) →
    FFState × List (JStr × Nat)
  | [], _, st, log => (st, log)
  | (rootService, containerIds) :: rest, i, st, log =>
    match mapGet? fresh rootService with
    | none => driftGo cfg started now fresh rest i st log
    | some newContainerIds =>
      if newContainerIds.any (fun cid => !(containerIds.contains cid)) then
        let st' := updateServiceMapping cfg started now i rootService containerIds st
        driftGo cfg started now fresh rest (i + 1) st'
          (log ++ [(rootService, (mapGet? st'.serviceIntervals rootService).getD 0)])
      else driftGo cfg started now fresh rest i st log

/-- One drift pass over the committed map against a fresh candidate map. -/
def driftPass (cfg : Cfg) (started : String → Nat) (now : Nat)
    (fresh : List (JStr × List String)) (st : FFState) :
    FFState × List (JStr × Nat) :=
  driftGo cfg started now fresh st.serviceMap 0 st []

/-- One full discovery iteration after `listContainers()` resolved:
group, then either first-populate or run the drift pass (lines 128–183). -/
def updateMemoryIter (cfg : Cfg) (started : String → Nat) (now : Nat)
    (qualifiedServices : List JStr) (containers : List ContainerInfo)
    (st : FFState) : FFState :=
  let fresh := groupContainers qualifiedServices containers
  if st.serviceMap = [] then (firstPopulation cfg started now fresh st).1
  else (driftPass cfg started now fresh st).1

/-- A runtime call the worker issues. -/
inductive CallEv where
  | stop (id : String)
  | start (id : String)
deriving DecidableEq

/-- The in-place rotation `containerIds.shift(); containerIds.push(...)`
(lines 207–208) on a non-empty list. -/
def rotateIds : List String → List String
  | [] => []
  | h :: t => t ++ [h]

/-- The due-time test `this._config.serviceIntervals[rootService] < new
Date()` (line 199); an absent entry (`undefined`) compares false. -/
def dueLt (serviceIntervals : List (JStr × Nat)) (rootService : JStr)
    (now : Nat) : Bool :=
  match mapGet? serviceIntervals rootService with
  | some due => due < now
  | none => false

/-- Result of a worker pass: the final shared state, whether the pass ran
to completion (`ok = false` when a stop/start rejection aborted it — the
source has no try/finally, so on that path `workerMutex` is left as is),
the stop/start calls issued, and for each acted-upon service the due time
stored for it, in action order. -/
structure WorkerOut where
  st : FFState
  ok : Bool
  calls : List CallEv
  acted : List (JStr × Nat)
deriving DecidableEq

/-- The per-service loop of `_worker` (lines 196–226).  For a due service:
store `now + rolloverInterval + serviceRerollDistance * i` (post-increment
of `i`), rotate the list in place (the array inside the map mutates at
`shift`/`push` time, so the rotation is visible in the registry before the
stop call; the later `serviceMap.set` stores the same array and is a
no-op), then await `stop` and `start`; a rejection propagates and aborts
the remaining services.  An empty list would make `shift()` yield
`undefined` and the `slice` in `_containerIdDisplay` throw, aborting
likewise. -/
def workerGo (cfg : Cfg) (stopOk startOk : String → Bool) (now : Nat) :
    List (JStr × List String) → Nat → FFState → List CallEv →
    List (JStr × Nat) → WorkerOut
  | [], _, st, calls, acted => ⟨st, true, calls, acted⟩
  | (rootService, containerIds) :: rest, i, st, calls, acted =>
    if dueLt st.serviceIntervals rootService now then
      let st' := { st with
        serviceIntervals := mapSet st.serviceIntervals rootService
          (now + cfg.rolloverInterval + cfg.serviceRerollDistance * i) }
      let acted' := acted ++
        [(rootService, (mapGet? st'.serviceIntervals rootService).getD 0)]
      match containerIds with
      | [] => ⟨st', false, calls, acted'⟩
      | containerId :: restIds =>
        let st'' := { st' with
          serviceMap := mapSet st'.serviceMap rootService
            (rotateIds (containerId :: restIds)) }
        let calls' := calls ++ [CallEv.stop containerId]
        if stopOk containerId then
          let calls'' := calls' ++ [CallEv.start containerId]
          if startOk containerId then
            workerGo cfg stopOk startOk now rest (i + 1) st'' calls'' acted'
          else ⟨st'', false, calls'', acted'⟩
        else ⟨st'', false, calls', acted'⟩
    else
      workerGo cfg stopOk startOk now rest i st calls acted

/-- `_worker` (lines 189–229): the reentrancy guard (`if busy, return`),
the flag set, the per-service loop over the committed map, and — only on
the completion path — the flag clear; the source clears the flag on no
error path. -/
def workerPass (cfg : Cfg) (stopOk startOk : String → Bool) (now : Nat)
    (st : FFState) : WorkerOut :=
  if st.workerMutex then ⟨st, true, [], []⟩
  else
    let out := workerGo cfg stopOk startOk now st.serviceMap 0
      { st with workerMutex := true } [] []
    if out.ok then ⟨{ out.st with workerMutex := false }, true, out.calls, out.acted⟩
    else out

/-!
Interleaving model for the mutual-exclusion claim.  The two loops are
single-threaded coroutines: control can change hands only at an `await`
(`yield`).  Each program counter below names one suspension point of the
source; the transition out of it performs exactly the synchronous code
that runs from that resumption to the next suspension.  The scenario is
instantiated with one allow-listed service and a drifted candidate set, so
that a discovery iteration has a remap to commit.
-/

/-- Suspension points of one `_updateMemory` iteration (lines 122–186):
the mutex busy-poll at the loop head, the awaited `listContainers()`, the
awaited inspections inside `_updateServiceMapping`, and the trailing
`thread_sleep`. -/
inductive DPc where
  | checkMutex
  | awaitList
  | awaitInspect
  | sleeping
deriving DecidableEq

/-- Suspension points of a `_worker` pass (lines 189–229): idle between
ticks, the awaited `container.stop()`, and the awaited
`container.start()`. -/
inductive WPc where
  | idle
  | awaitStop
  | awaitStart
deriving DecidableEq

/-- Whole-system state for the interleaving scenario: the shared
`FFState`, both program counters, the committed ids snapshot the
discovery iteration captured (the `containerIds` destructured from the
map entry), the rotated array the worker pass holds (the same object it
stored into the map at tick time) together with the id it is restarting,
and a history flag that records whether discovery ever committed a remap
while a worker pass was in progress. -/
structure Sys where
  st : FFState
  dpc : DPc
  wpc : WPc
  snapshot : List String
  heldIds : List String
  restarting : String
  driftWriteDuringPass : Bool
deriving DecidableEq

/-- Scheduler events: resume the discovery coroutine (its pending timer or
runtime promise resolves) or the worker (a 2s tick fires, or its pending
stop/start promise resolves). -/
inductive Ev where
  | d
  | w
deriving DecidableEq

/-- The single allow-listed service of the scenario. -/
def scnService : JStr := [115]

/-- The container ids that `listContainers` reports in the scenario for the
service: one already-committed id and one new id, i.e. drift. -/
def scnFreshIds : List String := ["a", "c"]

/-- Start timestamps that `inspect` reports in the scenario. -/
def scnStarted : String → Nat := fun _ => 0

/-- Clock value at which the discovery iteration commits. -/
def scnDNow : Nat := 1000

/-- Clock value at which the worker tick runs. -/
def scnWNow : Nat := 1

/-- One scheduler step.  Discovery transitions are the synchronous blocks
of `_updateMemory`: the busy-poll only re-checks the flag at the loop head
(line 124) — once `listContainers()` has been issued the flag is never
consulted again, so the grouping, drift test and final commit run
regardless of the state of the worker.  Worker transitions are the synchronous
blocks of `_worker`; the tick transition performs the reentrancy check,
sets the flag, and for the due service stores the new interval and
rotates the list before suspending on `stop()`. -/
def sysStep : Ev → Sys → Sys
  | .d, s =>
    match s.dpc with
    | .checkMutex =>
      if s.st.workerMutex then s else { s with dpc := .awaitList }
    | .awaitList =>
      match mapGet? s.st.serviceMap scnService with
      | none => { s with dpc := .sleeping }
      | some containerIds =>
        if scnFreshIds.any (fun cid => !(containerIds.contains cid)) then
          { s with dpc := .awaitInspect, snapshot := containerIds }
        else { s with dpc := .sleeping }
    | .awaitInspect =>
      { s with
        st := updateServiceMapping defaultCfg scnStarted scnDNow 0 scnService
          s.snapshot s.st
        dpc := .sleeping
        driftWriteDuringPass := s.driftWriteDuringPass || decide (s.wpc ≠ .idle) }
    | .sleeping => { s with dpc := .checkMutex }
  | .w, s =>
    match s.wpc with
    | .idle =>
      if s.st.workerMutex then s
      else
        if dueLt s.st.serviceIntervals scnService scnWNow then
          match mapGet? s.st.serviceMap scnService with
          | none => s
          | some containerIds =>
            match containerIds with
            | [] => s
            | containerId :: restIds =>
              { s with
                st :=
                  { workerMutex := true
                    serviceMap := mapSet s.st.serviceMap scnService
                      (rotateIds (containerId :: restIds))
                    serviceIntervals := mapSet s.st.serviceIntervals scnService
                      (scnWNow + defaultCfg.rolloverInterval) }
                wpc := .awaitStop
                heldIds := rotateIds (containerId :: restIds)
                restarting := containerId }
        else s
    | .awaitStop => { s with wpc := .awaitStart }
    | .awaitStart =>
      { s with
        st := { s.st with
          serviceMap := mapSet s.st.serviceMap scnService s.heldIds
          workerMutex := false }
        wpc := .idle }

/-- Run a schedule from a state. -/
def sysRun (sched : List Ev) (s : Sys) : Sys :=
  sched.foldl (fun s e => sysStep e s) s

/-- Initial system state of the scenario: the service is committed with ids
`["a", "b"]` and its due time already elapsed; both coroutines are at
their loop heads. -/
def scnInit : Sys :=
  { st := ⟨false, [(scnService, ["a", "b"])], [(scnService, 0)]⟩
    dpc := .checkMutex
    wpc := .idle
    snapshot := []
    heldIds := []
    restarting := ""
    driftWriteDuringPass := false }

/-! Basic lemmas about the map model. -/

theorem mapGet?_mapSet_self {κ α : Type} [DecidableEq κ]
    (m : List (κ × α)) (k : κ) (v : α) :
    mapGet? (mapSet m k v) k = some v := by
  induction m with
  | nil => simp [mapSet, mapGet?]
  | cons p rest ih =>
    obtain ⟨k', v'⟩ := p
    by_cases h : k' = k
    · subst h
      simp [mapSet, mapGet?]
    · simp [mapSet, mapGet?, h, ih]

theorem mapGet?_mapSet_ne {κ α : Type} [DecidableEq κ]
    (m : List (κ × α)) (k k' : κ) (v : α) (h : k' ≠ k) :
    mapGet? (mapSet m k v) k' = mapGet? m k' := by
  induction m with
  | nil =>
    have : ¬ k = k' := fun hh => h hh.symm
    simp [mapSet, mapGet?, this]
  | cons p rest ih =>
    obtain ⟨k'', v''⟩ := p
    by_cases hk : k'' = k
    · subst hk
      have : ¬ (k'' = k') := fun hh => h hh.symm
      simp [mapSet, mapGet?, this]
    · by_cases hk' : k'' = k'
      · subst hk'
        simp [mapSet, mapGet?, hk]
      · simp [mapSet, mapGet?, hk, hk', ih]

theorem mem_mapSet {κ α : Type} [DecidableEq κ]
    (m : List (κ × α)) (k : κ) (v : α) (p : κ × α)
    (hp : p ∈ mapSet m k v) : p = (k, v) ∨ p ∈ m := by
  induction m with
  | nil => simpa [mapSet] using hp
  | cons q rest ih =>
    obtain ⟨k', v'⟩ := q
    by_cases h : k' = k
    · subst h
      simp [mapSet] at hp
      rcases hp with h1 | h1
      · exact Or.inl h1
      · exact Or.inr (List.mem_cons_of_mem _ h1)
    · simp [mapSet, h] at hp
      rcases hp with h1 | h1
      · exact Or.inr (by simp [h1])
      · rcases ih h1 with h2 | h2
        · exact Or.inl h2
        · exact Or.inr (List.mem_cons_of_mem _ h2)

theorem mapGet?_mem {κ α : Type} [DecidableEq κ]
    (m : List (κ × α)) (k : κ) (v : α) (h : mapGet? m k = some v) :
    (k, v) ∈ m := by
  induction m with
  | nil => simp [mapGet?] at h
  | cons p rest ih =>
    obtain ⟨k', v'⟩ := p
    by_cases hk : k' = k
    · subst hk
      simp [mapGet?] at h
      simp [h]
    · simp [mapGet?, hk] at h
      exact List.mem_cons_of_mem _ (ih h)

/-! Configuration loading. -/

theorem jsToLowerCode_eq_comma (c : Nat) :
    jsToLowerCode c = commaCode ↔ c = commaCode := by
  unfold jsToLowerCode commaCode
  split <;> omega

theorem splitOnComma_ne_nil (s : JStr) : splitOnComma s ≠ [] := by
  cases s with
  | nil => simp [splitOnComma]
  | cons c rest =>
    simp only [splitOnComma]
    split
    · simp
    · split <;> simp

theorem splitOnComma_jsToLower (s : JStr) :
    splitOnComma (jsToLower s) = (splitOnComma s).map jsToLower := by
  induction s with
  | nil => rfl
  | cons c rest ih =>
    by_cases hc : c = commaCode
    · subst hc
      have h44 : jsToLowerCode commaCode = commaCode := by decide
      simp [jsToLower, splitOnComma, h44, ih] at ih ⊢
    · have hlc : ¬ jsToLowerCode c = commaCode := fun h =>
        hc ((jsToLowerCode_eq_comma c).mp h)
      obtain ⟨g, gs, hg⟩ : ∃ g gs, splitOnComma rest = g :: gs := by
        cases hsp : splitOnComma rest with
        | nil => exact absurd hsp (splitOnComma_ne_nil rest)
        | cons g gs => exact ⟨g, gs, rfl⟩
      have hg2 : splitOnComma (jsToLower rest) = jsToLower g :: gs.map jsToLower := by
        rw [ih, hg]
        simp
      simp only [jsToLower, List.map_cons] at hg2 ⊢
      simp only [splitOnComma, if_neg hlc, if_neg hc, hg2, hg]
      simp [jsToLower]

/-- C9: with `FF_SERVICES` absent or empty the constructor raises before
any loop is started (the `_getServiceEnv` call at line 64 precedes the
`setInterval` at line 66 and the `_updateMemory` call at line 68, so the
thrown error aborts construction); with a non-empty value the configured
service names are exactly the comma-separated components of the value,
each lower-cased. -/
theorem c9_getServiceEnv :
    getServiceEnv none = .error "Invalid services given" ∧
    getServiceEnv (some []) = .error "Invalid services given" ∧
    ∀ s : JStr, s ≠ [] →
      getServiceEnv (some s) = .ok ((splitOnComma s).map jsToLower) := by
  refine ⟨rfl, rfl, ?_⟩
  intro s hs
  simp only [getServiceEnv, if_neg hs]
  rw [splitOnComma_jsToLower]

/-- C9 witness: on the concrete value `"A,b"` (code units 65, 44, 98) the
configured names are `["a", "b"]` (97 and 98), and the error cases. -/
theorem c9_getServiceEnv_witness :
    getServiceEnv none = .error "Invalid services given" ∧
    getServiceEnv (some []) = .error "Invalid services given" ∧
    getServiceEnv (some [65, 44, 98]) = .ok [[97], [98]] := by
  refine ⟨c9_getServiceEnv.1, c9_getServiceEnv.2.1, ?_⟩
  have h := c9_getServiceEnv.2.2 [65, 44, 98] (by decide)
  rw [h]
  rfl

/-! Container age ordering. -/

/-- C3: the container-ordering step does not sort oldest-first.  With
container `"x"` started at 1 and `"y"` started at 2 under `now = 10`,
the comparator returns 1 for the pair (x, y) — placing the strictly older
x AFTER y — and also 1 for (y, x), so it is inconsistent; its result does
not depend on the second operand at all.  Under the stable-sort model the
returned order is `["y", "x"]`, with the older container last, refuting
the oldest-first contract on this input. -/
theorem c3_sortNotOldestFirst :
    sortContainersByAge (fun i => if i = "x" then 1 else 2) 10 ["x", "y"]
      = ["y", "x"] ∧
    ageComparator 10 ⟨"x", 1⟩ ⟨"y", 2⟩ = 1 ∧
    ageComparator 10 ⟨"y", 2⟩ ⟨"x", 1⟩ = 1 ∧
    ageComparator 10 ⟨"x", 1⟩ ⟨"z", 7⟩ = ageComparator 10 ⟨"x", 1⟩ ⟨"y", 2⟩ := by
  refine ⟨?_, by decide, by decide, by decide⟩
  decide

/-! Drift remap. -/

/-- The committed registry of the C1 scenario: one service (code unit 115)
with committed container ids `["a", "b"]` and an arbitrary due time. -/
def c1Committed : FFState :=
  ⟨false, [([115], ["a", "b"])], [([115], 100)]⟩

/-- C1: given committed ids `{a, b}` and freshly discovered ids `{a, c}`
for the same service, the drift test fires (c is absent from the committed
set), but the remap recommits the OLD committed list — the source passes
`containerIds` instead of `newContainerIds` at line 180 — so the registry
afterwards is an ordering of `{a, b}` (here `["b", "a"]` after the age
sort) and never contains `c`; only the due time is reset
(1000 + initialDebounce = 301000). -/
theorem c1_driftRecommitsOldIds :
    (driftPass defaultCfg (fun _ => 0) 1000 [([115], ["a", "c"])]
        c1Committed).1
      = ⟨false, [([115], ["b", "a"])], [([115], 301000)]⟩ ∧
    "c" ∉ ((driftPass defaultCfg (fun _ => 0) 1000 [([115], ["a", "c"])]
        c1Committed).1.serviceMap.map Prod.snd).flatten := by
  refine ⟨?_, ?_⟩ <;> decide

/-! Worker pass failure path. -/

/-- Worker output of the C2 scenario: one due service whose head container
rejects its `stop()` call. -/
def c2Out : WorkerOut :=
  workerPass defaultCfg (fun _ => false) (fun _ => true) 1
    ⟨false, [([115], ["c1"])], [([115], 0)]⟩

/-- C2: a failed stop call aborts the pass with the busy flag still set —
the source has no try/finally around the loop, so line 228 never runs —
and every later tick (here at a time far past the new due time) is a
no-op because of the reentrancy guard: the system is locked out of all
future passes. -/
theorem c2_mutexLeakOnFailure :
    c2Out.ok = false ∧
    c2Out.st.workerMutex = true ∧
    c2Out.calls = [CallEv.stop "c1"] ∧
    workerPass defaultCfg (fun _ => true) (fun _ => true) 2000000 c2Out.st
      = ⟨c2Out.st, true, [], []⟩ := by
  refine ⟨?_, ?_, ?_, ?_⟩ <;> decide

/-! Mutual exclusion. -/

/-- Final system state of the C4 schedule: discovery passes its mutex
check and suspends on `listContainers`; a worker tick then takes the flag
and suspends on `stop()`; discovery resumes twice and commits. -/
def c4Final : Sys := sysRun [Ev.d, Ev.w, Ev.d, Ev.d] scnInit

/-- System state of the C4 schedule just after the worker tick, before
discovery resumes: the pass holds the flag, has stored its due time
`scnWNow + rolloverInterval = 1800001` and the rotated list
`["b", "a"]`. -/
def c4MidPass : Sys := sysRun [Ev.d, Ev.w] scnInit

/-- C4: the mutex check of the discovery loop sits only at the head of
the iteration (line 124); once `listContainers()` has been awaited the
flag is never re-read, so discovery commits a remap while the worker pass
is still in progress.  After the schedule d, w, d, d the worker is still
suspended on `stop()` with the flag set, yet the registry has been
rewritten: the due time 1800001 the pass stored became 301000 and the
rotated list `["b", "a"]` became `["a", "b"]`. -/
theorem c4_driftWriteMidPass :
    c4MidPass.st.workerMutex = true ∧
    c4MidPass.wpc = WPc.awaitStop ∧
    c4MidPass.st.serviceIntervals = [(scnService, 1800001)] ∧
    c4MidPass.st.serviceMap = [(scnService, ["b", "a"])] ∧
    c4Final.driftWriteDuringPass = true ∧
    c4Final.wpc = WPc.awaitStop ∧
    c4Final.st.workerMutex = true ∧
    c4Final.st.serviceIntervals = [(scnService, 301000)] ∧
    c4Final.st.serviceMap = [(scnService, ["a", "b"])] := by
  refine ⟨?_, ?_, ?_, ?_, ?_, ?_, ?_, ?_, ?_⟩ <;> decide

/-! Idle worker pass. -/

theorem workerGo_skip_all (cfg : Cfg) (stopOk startOk : String → Bool)
    (now : Nat) (entries : List (JStr × List String)) (i : Nat)
    (st : FFState) (calls : List CallEv) (acted : List (JStr × Nat))
    (h : ∀ svc due, mapGet? st.serviceIntervals svc = some due → now < due) :
    workerGo cfg stopOk startOk now entries i st calls acted
      = ⟨st, true, calls, acted⟩ := by
  induction entries generalizing i calls acted with
  | nil => rfl
  | cons p rest ih =>
    obtain ⟨svc, ids⟩ := p
    have hd : dueLt st.serviceIntervals svc now = false := by
      unfold dueLt
      cases hm : mapGet? st.serviceIntervals svc with
      | none => rfl
      | some due =>
        have := h svc due hm
        simp
        omega
    simp only [workerGo, hd, Bool.false_eq_true, if_false]
    exact ih i calls acted

/-- C8: for any registry whose stored due times all lie strictly in the
future, a single worker tick issues no stop or start call, acts on no
service, and returns the state unchanged (every committed container list
and due time — indeed the whole shared state — is as before). -/
theorem c8_idleTickIsNoop (cfg : Cfg) (stopOk startOk : String → Bool)
    (now : Nat) (st : FFState)
    (h : ∀ svc due, mapGet? st.serviceIntervals svc = some due → now < due) :
    workerPass cfg stopOk startOk now st = ⟨st, true, [], []⟩ := by
  unfold workerPass
  by_cases hm : st.workerMutex
  · simp [hm]
  · simp only [hm, if_false]
    rw [workerGo_skip_all cfg stopOk startOk now st.serviceMap 0
      { st with workerMutex := true } [] [] (fun svc due hd => h svc due hd)]
    simp only
    cases st with
    | mk w m iv =>
      simp only [Bool.not_eq_true] at hm
      subst hm
      rfl

/-- C8 witness: a concrete registry with one service due at 10, ticked at
5, is returned untouched with no calls. -/
theorem c8_idleTickIsNoop_witness :
    workerPass defaultCfg (fun _ => true) (fun _ => true) 5
        ⟨false, [([115], ["a", "b"])], [([115], 10)]⟩
      = ⟨⟨false, [([115], ["a", "b"])], [([115], 10)]⟩, true, [], []⟩ := by
  apply c8_idleTickIsNoop
  intro svc due hd
  simp only [mapGet?] at hd
  split at hd
  · simp only [Option.some.injEq] at hd
    omega
  · exact absurd hd (by simp)

/-! Rotation invariants. -/

theorem rotateIds_length (l : List String) :
    (rotateIds l).length = l.length := by
  cases l <;> simp [rotateIds]

theorem rotateIds_perm (l : List String) : (rotateIds l).Perm l := by
  cases l with
  | nil => rfl
  | cons h t => exact List.perm_append_singleton h t

/-- C6: the in-place rotation commits the old head at the tail, drops and
duplicates nothing (it is a permutation, so the id set and the length are
preserved, and nodup is preserved), the length is invariant under any
number of rotations, and a worker pass over a due service with a
non-empty list and successful stop/start commits exactly the rotated list
back into the registry, with exactly one stop and one start against the
old head. -/
theorem c6_rotationInvariant (h : String) (t : List String) (svc : JStr)
    (d now : Nat) (cfg : Cfg) (stopOk startOk : String → Bool)
    (hdue : d < now) (hstop : stopOk h = true) (hstart : startOk h = true) :
    (rotateIds (h :: t)).getLast? = some h ∧
    (rotateIds (h :: t)).Perm (h :: t) ∧
    ((h :: t).Nodup ↔ (rotateIds (h :: t)).Nodup) ∧
    (∀ l : List String, ∀ n : Nat, (rotateIds^[n] l).length = l.length) ∧
    (workerPass cfg stopOk startOk now
        ⟨false, [(svc, h :: t)], [(svc, d)]⟩).st.serviceMap
      = [(svc, rotateIds (h :: t))] ∧
    (workerPass cfg stopOk startOk now
        ⟨false, [(svc, h :: t)], [(svc, d)]⟩).calls
      = [CallEv.stop h, CallEv.start h] := by
  have hperm := rotateIds_perm (h :: t)
  refine ⟨?_, hperm, ?_, ?_, ?_, ?_⟩
  · simp [rotateIds]
  · exact (hperm.nodup_iff).symm
  · intro l n
    induction n generalizing l with
    | zero => rfl
    | succ k ih =>
      rw [Function.iterate_succ_apply]
      rw [ih (rotateIds l), rotateIds_length]
  · have hd : dueLt [(svc, d)] svc now = true := by
      simp [dueLt, mapGet?, hdue]
    simp [workerPass, workerGo, hd, hstop, hstart, mapSet, rotateIds]
  · have hd : dueLt [(svc, d)] svc now = true := by
      simp [dueLt, mapGet?, hdue]
    simp [workerPass, workerGo, hd, hstop, hstart, mapSet, rotateIds]

/-- C6 witness: the concrete pass with list `["c1", "c2"]` commits
`["c2", "c1"]` and issues one stop/start pair against `"c1"`. -/
theorem c6_rotationInvariant_witness :
    (rotateIds ["c1", "c2"]).getLast? = some "c1" ∧
    (rotateIds ["c1", "c2"]).Perm ["c1", "c2"] ∧
    (["c1", "c2"].Nodup ↔ (rotateIds ["c1", "c2"]).Nodup) ∧
    (∀ l : List String, ∀ n : Nat, (rotateIds^[n] l).length = l.length) ∧
    (workerPass defaultCfg (fun _ => true) (fun _ => true) 1
        ⟨false, [([115], ["c1", "c2"])], [([115], 0)]⟩).st.serviceMap
      = [([115], rotateIds ["c1", "c2"])] ∧
    (workerPass defaultCfg (fun _ => true) (fun _ => true) 1
        ⟨false, [([115], ["c1", "c2"])], [([115], 0)]⟩).calls
      = [CallEv.stop "c1", CallEv.start "c1"] :=
  c6_rotationInvariant "c1" ["c2"] [115] 0 1 defaultCfg
    (fun _ => true) (fun _ => true) (by decide) rfl rfl

/-! Debounce. -/

theorem workerGo_preserves_undue (cfg : Cfg) (stopOk startOk : String → Bool)
    (now : Nat) (svc : JStr) (d : Nat) (hnd : ¬ d < now) :
    ∀ (entries : List (JStr × List String)) (i : Nat) (st : FFState)
      (calls : List CallEv) (acted : List (JStr × Nat)),
      mapGet? st.serviceIntervals svc = some d →
      (∀ p ∈ (workerGo cfg stopOk startOk now entries i st calls acted).acted,
          p ∈ acted ∨ p.1 ≠ svc) ∧
      mapGet? (workerGo cfg stopOk startOk now entries i st calls
          acted).st.serviceMap svc = mapGet? st.serviceMap svc ∧
      mapGet? (workerGo cfg stopOk startOk now entries i st calls
          acted).st.serviceIntervals svc = some d := by
  intro entries
  induction entries with
  | nil =>
    intro i st calls acted hd
    exact ⟨fun p hp => Or.inl hp, rfl, hd⟩
  | cons q rest ih =>
    obtain ⟨s', ids⟩ := q
    intro i st calls acted hd
    by_cases hsvc : s' = svc
    · subst hsvc
      have hfalse : dueLt st.serviceIntervals s' now = false := by
        unfold dueLt
        rw [hd]
        simp
        omega
      simp only [workerGo, hfalse, Bool.false_eq_true, if_false]
      exact ih i st calls acted hd
    · have hne : svc ≠ s' := fun hh => hsvc hh.symm
      have hiv : mapGet? (mapSet st.serviceIntervals s'
          (now + cfg.rolloverInterval + cfg.serviceRerollDistance * i)) svc
            = some d := by
        rw [mapGet?_mapSet_ne _ _ _ _ hne]
        exact hd
      have hactedNew : ∀ (v : Nat) (p : JStr × Nat),
          p ∈ acted ++ [(s', v)] → p ∈ acted ∨ p.1 ≠ svc := by
        intro v p hp
        rcases List.mem_append.mp hp with hp | hp
        · exact Or.inl hp
        · simp at hp
          subst hp
          exact Or.inr hsvc
      cases hdue : dueLt st.serviceIntervals s' now with
      | false =>
        simp only [workerGo, hdue, Bool.false_eq_true, if_false]
        exact ih i st calls acted hd
      | true =>
        cases ids with
        | nil =>
          refine ⟨?_, ?_, ?_⟩
          · simp only [workerGo, hdue, if_true]
            exact hactedNew _
          · simp only [workerGo, hdue, if_true]
          · simp only [workerGo, hdue, if_true]
            exact hiv
        | cons cid restIds =>
          have hmap : mapGet? (mapSet st.serviceMap s'
              (rotateIds (cid :: restIds))) svc = mapGet? st.serviceMap svc :=
            mapGet?_mapSet_ne _ _ _ _ hne
          cases hstop : stopOk cid with
          | false =>
            refine ⟨?_, ?_, ?_⟩
            · simp only [workerGo, hdue, if_true, hstop, Bool.false_eq_true,
                if_false]
              exact hactedNew _
            · simp only [workerGo, hdue, if_true, hstop, Bool.false_eq_true,
                if_false]
              exact hmap
            · simp only [workerGo, hdue, if_true, hstop, Bool.false_eq_true,
                if_false]
              exact hiv
          | true =>
            cases hstart : startOk cid with
            | false =>
              refine ⟨?_, ?_, ?_⟩
              · simp only [workerGo, hdue, if_true, hstop, hstart,
                  Bool.false_eq_true, if_false]
                exact hactedNew _
              · simp only [workerGo, hdue, if_true, hstop, hstart,
                  Bool.false_eq_true, if_false]
                exact hmap
              · simp only [workerGo, hdue, if_true, hstop, hstart,
                  Bool.false_eq_true, if_false]
                exact hiv
            | true =>
              obtain ⟨ha, hm, hi⟩ := ih (i + 1)
                { st with
                  serviceMap := mapSet st.serviceMap s'
                    (rotateIds (cid :: restIds))
                  serviceIntervals := mapSet st.serviceIntervals s'
                    (now + cfg.rolloverInterval + cfg.serviceRerollDistance * i) }
                (calls ++ [CallEv.stop cid] ++ [CallEv.start cid])
                (acted ++ [(s', (mapGet? (mapSet st.serviceIntervals s'
                  (now + cfg.rolloverInterval + cfg.serviceRerollDistance * i))
                    s').getD 0)]) hiv
              refine ⟨?_, ?_, ?_⟩
              · simp only [workerGo, hdue, if_true, hstop, hstart]
                intro p hp
                rcases ha p hp with hp2 | hp2
                · exact hactedNew _ p hp2
                · exact Or.inr hp2
              · simp only [workerGo, hdue, if_true, hstop, hstart]
                rw [hm]
                exact hmap
              · simp only [workerGo, hdue, if_true, hstop, hstart]
                exact hi

theorem workerPass_preserves_undue (cfg : Cfg) (stopOk startOk : String → Bool)
    (now : Nat) (r : FFState) (svc : JStr) (d : Nat)
    (hd : mapGet? r.serviceIntervals svc = some d) (hnd : ¬ d < now) :
    (∀ p ∈ (workerPass cfg stopOk startOk now r).acted, p.1 ≠ svc) ∧
    mapGet? (workerPass cfg stopOk startOk now r).st.serviceMap svc
      = mapGet? r.serviceMap svc := by
  unfold workerPass
  by_cases hm : r.workerMutex
  · simp [hm]
  · simp only [if_neg hm]
    obtain ⟨ha, hmp, _⟩ := workerGo_preserves_undue cfg stopOk startOk now
      svc _ hnd r.serviceMap 0 { r with workerMutex := true } [] [] hd
    have hclean : ∀ p ∈ (workerGo cfg stopOk startOk now r.serviceMap 0
        { r with workerMutex := true } [] []).acted, p.1 ≠ svc := by
      intro p hp
      rcases ha p hp with hp2 | hp2
      · exact absurd hp2 (List.not_mem_nil p)
      · exact hp2
    split
    · exact ⟨hclean, hmp⟩
    · exact ⟨hclean, hmp⟩

/-- C7: a remap at time `t0` with pass index `i` stores a due time of at
least `t0 + initialDebounce` for the service, and any worker tick at a
time earlier than `t0 + initialDebounce` fails the due check for that
service (the strict `due < now` comparison at line 199 is false), so the
remapped service is never among the acted-upon services of the tick and
its committed container list is untouched — regardless of how often
ticks fire. -/
theorem c7_debounce (cfg : Cfg) (started : String → Nat)
    (stopOk startOk : String → Bool) (t0 i : Nat) (svc : JStr)
    (ids : List String) (st : FFState) (now : Nat)
    (h : now < t0 + cfg.initialDebounce) :
    (∃ d, mapGet? (updateServiceMapping cfg started t0 i svc ids
        st).serviceIntervals svc = some d ∧ t0 + cfg.initialDebounce ≤ d) ∧
    (∀ p ∈ (workerPass cfg stopOk startOk now
        (updateServiceMapping cfg started t0 i svc ids st)).acted,
      p.1 ≠ svc) ∧
    mapGet? (workerPass cfg stopOk startOk now
        (updateServiceMapping cfg started t0 i svc ids st)).st.serviceMap svc
      = mapGet? (updateServiceMapping cfg started t0 i svc ids
        st).serviceMap svc := by
  have hd : mapGet? (updateServiceMapping cfg started t0 i svc ids
      st).serviceIntervals svc
      = some (t0 + cfg.initialDebounce + cfg.serviceRerollDistance * i) := by
    unfold updateServiceMapping
    exact mapGet?_mapSet_self _ _ _
  have hnd : ¬ (t0 + cfg.initialDebounce + cfg.serviceRerollDistance * i)
      < now := by omega
  obtain ⟨ha, hmp⟩ := workerPass_preserves_undue cfg stopOk startOk now
    (updateServiceMapping cfg started t0 i svc ids st) svc _ hd hnd
  exact ⟨⟨_, hd, Nat.le_add_right _ _⟩, ha, hmp⟩

/-- C7 witness: remap at `t0 = 0` with index 0 on an empty registry, tick
at `now = 100 < initialDebounce`: the stored due time is 300000, the tick
acts on nothing with this name, and the committed list stays put. -/
theorem c7_debounce_witness :
    (∃ d, mapGet? (updateServiceMapping defaultCfg (fun _ => 0) 0 0 [115]
        ["a"] ⟨false, [], []⟩).serviceIntervals [115] = some d ∧
      0 + defaultCfg.initialDebounce ≤ d) ∧
    (∀ p ∈ (workerPass defaultCfg (fun _ => true) (fun _ => true) 100
        (updateServiceMapping defaultCfg (fun _ => 0) 0 0 [115] ["a"]
          ⟨false, [], []⟩)).acted,
      p.1 ≠ [115]) ∧
    mapGet? (workerPass defaultCfg (fun _ => true) (fun _ => true) 100
        (updateServiceMapping defaultCfg (fun _ => 0) 0 0 [115] ["a"]
          ⟨false, [], []⟩)).st.serviceMap [115]
      = mapGet? (updateServiceMapping defaultCfg (fun _ => 0) 0 0 [115]
        ["a"] ⟨false, [], []⟩).serviceMap [115] :=
  c7_debounce defaultCfg (fun _ => 0) (fun _ => true) (fun _ => true) 0 0
    [115] ["a"] ⟨false, [], []⟩ 100 (by decide)

/-! Staggering. -/

theorem workerGo_acted_stagger (cfg : Cfg) (stopOk startOk : String → Bool)
    (now : Nat) :
    ∀ (entries : List (JStr × List String)) (i : Nat) (st : FFState)
      (calls : List CallEv) (acted : List (JStr × Nat)),
      ∃ L, (workerGo cfg stopOk startOk now entries i st calls acted).acted
          = acted ++ L ∧
        ∀ j, j < L.length → (L.getD j ([], 0)).2
          = now + cfg.rolloverInterval + cfg.serviceRerollDistance * (i + j) := by
  intro entries
  induction entries with
  | nil =>
    intro i st calls acted
    refine ⟨[], by simp [workerGo], ?_⟩
    intro j hj
    simp at hj
  | cons q rest ih =>
    obtain ⟨s', ids⟩ := q
    intro i st calls acted
    cases hdue : dueLt st.serviceIntervals s' now with
    | false =>
      simp only [workerGo, hdue, Bool.false_eq_true, if_false]
      exact ih i st calls acted
    | true =>
      have hval : (mapGet? (mapSet st.serviceIntervals s'
          (now + cfg.rolloverInterval + cfg.serviceRerollDistance * i)) s').getD 0
          = now + cfg.rolloverInterval + cfg.serviceRerollDistance * i := by
        rw [mapGet?_mapSet_self]
        rfl
      have hsingle : ∀ j, j < 1 →
          (([(s', now + cfg.rolloverInterval
            + cfg.serviceRerollDistance * i)] : List (JStr × Nat)).getD j
              ([], 0)).2
          = now + cfg.rolloverInterval + cfg.serviceRerollDistance * (i + j) := by
        intro j hj
        have hj0 : j = 0 := by omega
        subst hj0
        simp
      cases ids with
      | nil =>
        refine ⟨[(s', now + cfg.rolloverInterval
          + cfg.serviceRerollDistance * i)], ?_, hsingle⟩
        simp only [workerGo, hdue, if_true, hval]
      | cons cid restIds =>
        cases hstop : stopOk cid with
        | false =>
          refine ⟨[(s', now + cfg.rolloverInterval
            + cfg.serviceRerollDistance * i)], ?_, hsingle⟩
          simp only [workerGo, hdue, if_true, hstop, Bool.false_eq_true,
            if_false, hval]
        | true =>
          cases hstart : startOk cid with
          | false =>
            refine ⟨[(s', now + cfg.rolloverInterval
              + cfg.serviceRerollDistance * i)], ?_, hsingle⟩
            simp only [workerGo, hdue, if_true, hstop, hstart,
              Bool.false_eq_true, if_false, hval]
          | true =>
            obtain ⟨L, hL, hLs⟩ := ih (i + 1)
              { st with
                serviceMap := mapSet st.serviceMap s'
                  (rotateIds (cid :: restIds))
                serviceIntervals := mapSet st.serviceIntervals s'
                  (now + cfg.rolloverInterval + cfg.serviceRerollDistance * i) }
              (calls ++ [CallEv.stop cid] ++ [CallEv.start cid])
              (acted ++ [(s', (mapGet? (mapSet st.serviceIntervals s'
                (now + cfg.rolloverInterval + cfg.serviceRerollDistance * i))
                  s').getD 0)])
            refine ⟨(s', now + cfg.rolloverInterval
              + cfg.serviceRerollDistance * i) :: L, ?_, ?_⟩
            · simp only [workerGo, hdue, if_true, hstop, hstart]
              rw [hL, hval]
              simp
            · intro j hj
              cases j with
              | zero => simp
              | succ k =>
                have hk := hLs k (by simpa using hj)
                simp only [List.getD_cons_succ]
                rw [hk]
                have harith : i + 1 + k = i + (k + 1) := by omega
                rw [harith]

theorem driftGo_log_stagger (cfg : Cfg) (started : String → Nat) (now : Nat)
    (fresh : List (JStr × List String)) :
    ∀ (entries : List (JStr × List String)) (i : Nat) (st : FFState)
      (log : List (JStr × Nat)),
      ∃ L, (driftGo cfg started now fresh entries i st log).2 = log ++ L ∧
        ∀ j, j < L.length → (L.getD j ([], 0)).2
          = now + cfg.initialDebounce + cfg.serviceRerollDistance * (i + j) := by
  intro entries
  induction entries with
  | nil =>
    intro i st log
    refine ⟨[], by simp [driftGo], ?_⟩
    intro j hj
    simp at hj
  | cons q rest ih =>
    obtain ⟨s', ids⟩ := q
    intro i st log
    cases hfr : mapGet? fresh s' with
    | none =>
      simp only [driftGo, hfr]
      exact ih i st log
    | some newIds =>
      cases hdiff : newIds.any (fun cid => !(ids.contains cid)) with
      | false =>
        simp only [driftGo, hfr, hdiff, Bool.false_eq_true, if_false]
        exact ih i st log
      | true =>
        have hval : (mapGet? (updateServiceMapping cfg started now i s' ids
            st).serviceIntervals s').getD 0
            = now + cfg.initialDebounce + cfg.serviceRerollDistance * i := by
          unfold updateServiceMapping
          rw [mapGet?_mapSet_self]
          rfl
        obtain ⟨L, hL, hLs⟩ := ih (i + 1)
          (updateServiceMapping cfg started now i s' ids st)
          (log ++ [(s', (mapGet? (updateServiceMapping cfg started now i s'
            ids st).serviceIntervals s').getD 0)])
        refine ⟨(s', now + cfg.initialDebounce
          + cfg.serviceRerollDistance * i) :: L, ?_, ?_⟩
        · simp only [driftGo, hfr, hdiff, if_true]
          rw [hL, hval]
          simp
        · intro j hj
          cases j with
          | zero => simp
          | succ k =>
            have hk := hLs k (by simpa using hj)
            simp only [List.getD_cons_succ]
            rw [hk]
            have harith : i + 1 + k = i + (k + 1) := by omega
            rw [harith]

theorem firstGo_log_stagger (cfg : Cfg) (started : String → Nat) (now : Nat) :
    ∀ (entries : List (JStr × List String)) (i : Nat) (st : FFState)
      (log : List (JStr × Nat)),
      ∃ L, (firstGo cfg started now entries i st log).2 = log ++ L ∧
        ∀ j, j < L.length → (L.getD j ([], 0)).2
          = now + cfg.initialDebounce + cfg.serviceRerollDistance * (i + j) := by
  intro entries
  induction entries with
  | nil =>
    intro i st log
    refine ⟨[], by simp [firstGo], ?_⟩
    intro j hj
    simp at hj
  | cons q rest ih =>
    obtain ⟨s', ids⟩ := q
    intro i st log
    have hval : (mapGet? (updateServiceMapping cfg started now i s' ids
        st).serviceIntervals s').getD 0
        = now + cfg.initialDebounce + cfg.serviceRerollDistance * i := by
      unfold updateServiceMapping
      rw [mapGet?_mapSet_self]
      rfl
    obtain ⟨L, hL, hLs⟩ := ih (i + 1)
      (updateServiceMapping cfg started now i s' ids st)
      (log ++ [(s', (mapGet? (updateServiceMapping cfg started now i s'
        ids st).serviceIntervals s').getD 0)])
    refine ⟨(s', now + cfg.initialDebounce
      + cfg.serviceRerollDistance * i) :: L, ?_, ?_⟩
    · simp only [firstGo]
      rw [hL, hval]
      simp
    · intro j hj
      cases j with
      | zero => simp
      | succ k =>
        have hk := hLs k (by simpa using hj)
        simp only [List.getD_cons_succ]
        rw [hk]
        have harith : i + 1 + k = i + (k + 1) := by omega
        rw [harith]

theorem workerPass_acted (cfg : Cfg) (stopOk startOk : String → Bool)
    (now : Nat) (st : FFState) :
    (workerPass cfg stopOk startOk now st).acted
      = if st.workerMutex then []
        else (workerGo cfg stopOk startOk now st.serviceMap 0
          { st with workerMutex := true } [] []).acted := by
  unfold workerPass
  by_cases hm : st.workerMutex
  · simp [hm]
  · simp only [if_neg hm]
    split <;> rfl

/-- C5: in any single pass — a worker rollover pass, a discovery drift
pass, or the first-population pass — the due time stored for the j-th
acted-upon service is exactly `base + serviceRerollDistance * j` (base
`now + rolloverInterval` for the worker, `now + initialDebounce` for
discovery), so consecutive acted-upon services differ by exactly
`serviceRerollDistance`; skipped services do not advance the index. -/
theorem c5_staggering (cfg : Cfg) (started : String → Nat)
    (stopOk startOk : String → Bool) (now : Nat) (st : FFState)
    (fresh grouped : List (JStr × List String)) :
    (∀ j, j < (workerPass cfg stopOk startOk now st).acted.length →
      ((workerPass cfg stopOk startOk now st).acted.getD j ([], 0)).2
        = now + cfg.rolloverInterval + cfg.serviceRerollDistance * j) ∧
    (∀ j, j + 1 < (workerPass cfg stopOk startOk now st).acted.length →
      ((workerPass cfg stopOk startOk now st).acted.getD (j + 1) ([], 0)).2
        = ((workerPass cfg stopOk startOk now st).acted.getD j ([], 0)).2
          + cfg.serviceRerollDistance) ∧
    (∀ j, j + 1 < (driftPass cfg started now fresh st).2.length →
      ((driftPass cfg started now fresh st).2.getD (j + 1) ([], 0)).2
        = ((driftPass cfg started now fresh st).2.getD j ([], 0)).2
          + cfg.serviceRerollDistance) ∧
    (∀ j, j + 1 < (firstPopulation cfg started now grouped st).2.length →
      ((firstPopulation cfg started now grouped st).2.getD (j + 1) ([], 0)).2
        = ((firstPopulation cfg started now grouped st).2.getD j ([], 0)).2
          + cfg.serviceRerollDistance) := by
  have hworker : ∀ j, j < (workerPass cfg stopOk startOk now st).acted.length →
      ((workerPass cfg stopOk startOk now st).acted.getD j ([], 0)).2
        = now + cfg.rolloverInterval + cfg.serviceRerollDistance * j := by
    rw [workerPass_acted]
    by_cases hm : st.workerMutex
    · rw [if_pos hm]
      intro j hj
      simp at hj
    · rw [if_neg hm]
      obtain ⟨L, hL, hLs⟩ := workerGo_acted_stagger cfg stopOk startOk now
        st.serviceMap 0 { st with workerMutex := true } [] []
      rw [hL, List.nil_append]
      intro j hj
      have := hLs j hj
      simpa using this
  refine ⟨hworker, ?_, ?_, ?_⟩
  · intro j hj
    rw [hworker (j + 1) hj, hworker j (by omega)]
    ring
  · obtain ⟨L, hL, hLs⟩ := driftGo_log_stagger cfg started now fresh
      st.serviceMap 0 st []
    unfold driftPass
    rw [hL, List.nil_append]
    intro j hj
    rw [hLs (j + 1) hj, hLs j (by omega)]
    simp only [Nat.zero_add]
    ring
  · obtain ⟨L, hL, hLs⟩ := firstGo_log_stagger cfg started now grouped 0
      { st with serviceMap := grouped } []
    unfold firstPopulation
    rw [hL, List.nil_append]
    intro j hj
    rw [hLs (j + 1) hj, hLs j (by omega)]
    simp only [Nat.zero_add]
    ring

/-- Registry for the C5 witness: three services, the middle one not yet
due, so a worker tick at `now = 1` acts on the first and third only. -/
def c5St : FFState :=
  ⟨false,
    [([115], ["a"]), ([116], ["b"]), ([117], ["c"])],
    [([115], 0), ([116], 99999), ([117], 0)]⟩

/-- C5 witness: on `c5St` a tick acts on two services (skipping the
undue middle one) and their stored due times differ by exactly
`serviceRerollDistance`. -/
theorem c5_staggering_witness :
    0 + 1 < (workerPass defaultCfg (fun _ => true) (fun _ => true) 1
      c5St).acted.length ∧
    ((workerPass defaultCfg (fun _ => true) (fun _ => true) 1
        c5St).acted.getD (0 + 1) ([], 0)).2
      = ((workerPass defaultCfg (fun _ => true) (fun _ => true) 1
        c5St).acted.getD 0 ([], 0)).2 + defaultCfg.serviceRerollDistance := by
  refine ⟨by decide, ?_⟩
  exact (c5_staggering defaultCfg (fun _ => 0) (fun _ => true)
    (fun _ => true) 1 c5St [] []).2.1 0 (by decide)

/-! Well-formedness of committed container lists. -/

/-- Every list stored in a service map is non-empty and duplicate-free. -/
def goodLists (m : List (JStr × List String)) : Prop :=
  ∀ p ∈ m, p.2 ≠ [] ∧ p.2.Nodup

theorem sortContainersByAge_perm (started : String → Nat) (now : Nat)
    (ids : List String) : (sortContainersByAge started now ids).Perm ids := by
  unfold sortContainersByAge
  have h := List.perm_insertionSort (fun a b => ageComparator now a b ≤ 0)
    (ids.map (fun i => InspectInfo.mk i (started i)))
  have h2 := h.map InspectInfo.id
  rw [List.map_map] at h2
  have hcomp : (InspectInfo.id ∘ fun i => InspectInfo.mk i (started i))
      = fun i => i := rfl
  rw [hcomp] at h2
  simpa using h2

theorem goodLists_mapSet (m : List (JStr × List String)) (k : JStr)
    (v : List String) (hm : goodLists m) (hv : v ≠ [] ∧ v.Nodup) :
    goodLists (mapSet m k v) := by
  intro p hp
  rcases mem_mapSet m k v p hp with h | h
  · subst h
    exact hv
  · exact hm p h

theorem goodLists_collectStep (q : List JStr) (m : List (JStr × List String))
    (c : ContainerInfo) (hm : goodLists m) : goodLists (collectStep q m c) := by
  unfold collectStep
  cases hl : c.serviceLabel with
  | none => exact hm
  | some raw =>
    by_cases hraw : raw = []
    · simp only [if_pos hraw]
      exact hm
    · simp only [if_neg hraw]
      by_cases hq : q.contains (jsToLower raw)
      · simp only [hq, if_true]
        by_cases hin :
            ((mapGet? m (jsToLower raw)).getD []).contains c.id
        · simp only [hin, if_true]
          apply goodLists_mapSet _ _ _ hm
          cases hget : mapGet? m (jsToLower raw) with
          | none =>
            rw [hget] at hin
            simp at hin
          | some l =>
            simp only [Option.getD_some]
            exact hm (jsToLower raw, l) (mapGet?_mem m _ l hget)
        · simp only [hin, if_false]
          apply goodLists_mapSet _ _ _ hm
          constructor
          · simp
          · cases hget : mapGet? m (jsToLower raw) with
            | none => simp
            | some l =>
              rw [hget] at hin
              simp only [Option.getD_some] at hin ⊢
              have hnotmem : c.id ∉ l := by
                simpa using hin
              have hl2 : l.Nodup :=
                (hm (jsToLower raw, l) (mapGet?_mem m _ l hget)).2
              simp [List.nodup_append, hl2, hnotmem]
      · simp only [hq, if_false]
        exact hm

theorem goodLists_groupContainers (q : List JStr) (cs : List ContainerInfo) :
    goodLists (groupContainers q cs) := by
  unfold groupContainers
  have main : ∀ (cs : List ContainerInfo) (m : List (JStr × List String)),
      goodLists m → goodLists (cs.foldl (collectStep q) m) := by
    intro cs
    induction cs with
    | nil => exact fun m hm => hm
    | cons c rest ih =>
      intro m hm
      simp only [List.foldl_cons]
      exact ih _ (goodLists_collectStep q m c hm)
  exact main cs [] (fun p hp => absurd hp (List.not_mem_nil p))

theorem updateServiceMapping_good (cfg : Cfg) (started : String → Nat)
    (now i : Nat) (svc : JStr) (ids : List String) (st : FFState)
    (hm : goodLists st.serviceMap) (hids : ids ≠ [] ∧ ids.Nodup) :
    goodLists (updateServiceMapping cfg started now i svc ids
      st).serviceMap := by
  unfold updateServiceMapping
  apply goodLists_mapSet _ _ _ hm
  have hperm := sortContainersByAge_perm started now ids
  constructor
  · intro hnil
    rw [hnil] at hperm
    exact hids.1 (hperm.symm.eq_nil)
  · exact (hperm.nodup_iff).mpr hids.2

theorem driftGo_good (cfg : Cfg) (started : String → Nat) (now : Nat)
    (fresh : List (JStr × List String)) :
    ∀ (entries : List (JStr × List String)) (i : Nat) (st : FFState)
      (log : List (JStr × Nat)),
      goodLists st.serviceMap →
      (∀ p ∈ entries, p.2 ≠ [] ∧ p.2.Nodup) →
      goodLists (driftGo cfg started now fresh entries i st
        log).1.serviceMap := by
  intro entries
  induction entries with
  | nil => exact fun i st log hm _ => hm
  | cons q' rest ih =>
    obtain ⟨s', ids⟩ := q'
    intro i st log hm hent
    have hrest : ∀ p ∈ rest, p.2 ≠ [] ∧ p.2.Nodup :=
      fun p hp => hent p (List.mem_cons_of_mem _ hp)
    cases hfr : mapGet? fresh s' with
    | none =>
      simp only [driftGo, hfr]
      exact ih i st log hm hrest
    | some newIds =>
      cases hdiff : newIds.any (fun cid => !(ids.contains cid)) with
      | false =>
        simp only [driftGo, hfr, hdiff, Bool.false_eq_true, if_false]
        exact ih i st log hm hrest
      | true =>
        simp only [driftGo, hfr, hdiff, if_true]
        exact ih (i + 1) _ _
          (updateServiceMapping_good cfg started now i s' ids st hm
            (hent (s', ids) (List.mem_cons_self _ _)))
          hrest

theorem firstGo_good (cfg : Cfg) (started : String → Nat) (now : Nat) :
    ∀ (entries : List (JStr × List String)) (i : Nat) (st : FFState)
      (log : List (JStr × Nat)),
      goodLists st.serviceMap →
      (∀ p ∈ entries, p.2 ≠ [] ∧ p.2.Nodup) →
      goodLists (firstGo cfg started now entries i st log).1.serviceMap := by
  intro entries
  induction entries with
  | nil => exact fun i st log hm _ => hm
  | cons q' rest ih =>
    obtain ⟨s', ids⟩ := q'
    intro i st log hm hent
    simp only [firstGo]
    exact ih (i + 1) _ _
      (updateServiceMapping_good cfg started now i s' ids st hm
        (hent (s', ids) (List.mem_cons_self _ _)))
      (fun p hp => hent p (List.mem_cons_of_mem _ hp))

/-- C10: the candidate map the discovery grouping builds holds only
non-empty, duplicate-free lists (an entry is created only when a labelled
container exists, and an id is pushed only when absent); the age sort is
a permutation; and both discovery commit paths (drift pass and a full
discovery iteration, including first population) preserve
well-formedness of every committed list — hence wherever the worker reads
a committed list it is non-empty, its head exists, and the
shift-then-push rotation is the tail followed by the old head. -/
theorem c10_committedListsWellFormed (q : List JStr)
    (cs : List ContainerInfo) (cfg : Cfg) (started : String → Nat)
    (now : Nat) (fresh : List (JStr × List String)) (st : FFState)
    (hst : goodLists st.serviceMap) :
    goodLists (groupContainers q cs) ∧
    (∀ ids : List String, (sortContainersByAge started now ids).Perm ids) ∧
    goodLists (driftPass cfg started now fresh st).1.serviceMap ∧
    goodLists (updateMemoryIter cfg started now q cs st).serviceMap ∧
    (∀ svc ids, mapGet? (updateMemoryIter cfg started now q cs
          st).serviceMap svc = some ids →
      ∃ hh tt, ids = hh :: tt ∧ rotateIds ids = tt ++ [hh]) := by
  have hgroup := goodLists_groupContainers q cs
  have hdrift : goodLists (driftPass cfg started now fresh
      st).1.serviceMap := by
    unfold driftPass
    exact driftGo_good cfg started now fresh st.serviceMap 0 st [] hst hst
  have hiter : goodLists (updateMemoryIter cfg started now q cs
      st).serviceMap := by
    unfold updateMemoryIter
    by_cases hempty : st.serviceMap = []
    · simp only [hempty, if_pos rfl]
      unfold firstPopulation
      exact firstGo_good cfg started now _ 0 _ [] hgroup hgroup
    · simp only [if_neg hempty]
      unfold driftPass
      exact driftGo_good cfg started now _ st.serviceMap 0 st [] hst hst
  refine ⟨hgroup, sortContainersByAge_perm started now, hdrift, hiter, ?_⟩
  intro svc ids hget
  have hgood := hiter (svc, ids)
    (mapGet?_mem _ svc ids hget)
  cases hids : ids with
  | nil => exact absurd hids hgood.1
  | cons hh tt => exact ⟨hh, tt, rfl, rfl⟩

/-- C10 witness: a concrete discovery pass over two containers of one
allow-listed service (one duplicate listing, one foreign container)
commits only well-formed lists. -/
theorem c10_committedListsWellFormed_witness :
    goodLists (groupContainers [[115]]
      [⟨"a", some [115]⟩, ⟨"a", some [115]⟩, ⟨"b", some [116]⟩]) ∧
    (∀ ids : List String,
      (sortContainersByAge (fun _ => 0) 5 ids).Perm ids) ∧
    goodLists (driftPass defaultCfg (fun _ => 0) 5 [([115], ["a", "c"])]
      ⟨false, [([115], ["a", "b"])], [([115], 0)]⟩).1.serviceMap ∧
    goodLists (updateMemoryIter defaultCfg (fun _ => 0) 5 [[115]]
      [⟨"a", some [115]⟩, ⟨"a", some [115]⟩, ⟨"b", some [116]⟩]
      ⟨false, [([115], ["a", "b"])], [([115], 0)]⟩).serviceMap ∧
    (∀ svc ids, mapGet? (updateMemoryIter defaultCfg (fun _ => 0) 5 [[115]]
        [⟨"a", some [115]⟩, ⟨"a", some [115]⟩, ⟨"b", some [116]⟩]
        ⟨false, [([115], ["a", "b"])], [([115], 0)]⟩).serviceMap svc
          = some ids →
      ∃ hh tt, ids = hh :: tt ∧ rotateIds ids = tt ++ [hh]) :=
  c10_committedListsWellFormed [[115]]
    [⟨"a", some [115]⟩, ⟨"a", some [115]⟩, ⟨"b", some [116]⟩]
    defaultCfg (fun _ => 0) 5 [([115], ["a", "c"])]
    ⟨false, [([115], ["a", "b"])], [([115], 0)]⟩
    (by
      intro p hp
      simp only [List.mem_singleton] at hp
      subst hp
      exact ⟨by simp, by decide⟩)
